import Mathlib

/-!
Verification of the exhaustive prompt-combination engine of the
ComfyUI-SuperSuger node package.

The Lean definitions below are shallow embeddings of the Python sources:

* `calculate_total_combinations`, `get_mixed_radix_indices`
  embed `src/libs/cartesian.py` (the same loop also appears verbatim as
  `ExhaustivePromptCombinator._get_mixed_radix_indices`).
* `parse_pool_text`, `anchorNumbers`, `parse_and_validate_template`
  embed `TemplateProcessor.parse_and_validate_template` /
  `ExhaustivePromptCombinator._parse_and_validate_template`.
* `execute` embeds `ExhaustivePromptCombinator.execute`
  (`src/nodes/prompt_combinator.py`).
* `process_queue` embeds `ComfyUIAutoQueue.process_queue`
  (`src/libs/auto_queue.py`).
* `determine_index_and_reset`, `handle_step_and_terminate` embed the
  corresponding methods of `AutoQueueLoopController`
  (`src/nodes/auto_queue_loop.py`).
* `sm_calculate_input_hash` embeds `StateManager.calculate_input_hash`
  (`src/libs/state_manager.py`).

Machine integers are modelled as `Nat` (all quantities involved are
non-negative ints in the source; `total - 1` style subtractions are only
reached where the model provably agrees with Python semantics).  The MD5
digest is modelled as an arbitrary function `md5 : String → String`:
every statement about hashing holds for an arbitrary deterministic
digest function, which is exactly what MD5 is to this code.
-/

namespace SuperSuger

/-! ## `src/libs/cartesian.py` -/

/-- `calculate_total_combinations(pool_sizes)`: returns 1 for an empty
list, else `math.prod(pool_sizes)`. -/
def calculate_total_combinations (pool_sizes : List Nat) : Nat :=
  if pool_sizes = [] then 1 else pool_sizes.prod

/-- The digit-extraction loop of `get_mixed_radix_indices`, processing the
sizes least-significant first (the Python loop runs over
`reversed(pool_sizes)`, appending one local index per non-zero size; the
cons-accumulation here produces the list in the same order as the
Python `local_indices` list before its final `reverse`). -/
def mixedRadixLoop : Nat → List Nat → List Nat
  | _, [] => []
  | current_index, size :: rest =>
    if size = 0 then mixedRadixLoop current_index rest
    else current_index % size :: mixedRadixLoop (current_index / size) rest

/-- `get_mixed_radix_indices(global_index, pool_sizes)`: early-returns `[]`
for an empty size list, else runs the loop over the reversed sizes and
reverses the collected digits back into pool order. -/
def get_mixed_radix_indices (global_index : Nat) (pool_sizes : List Nat) : List Nat :=
  if pool_sizes = [] then []
  else (mixedRadixLoop global_index pool_sizes.reverse).reverse

/-- Reconstruction `sum(l_i * product(s_(i+1)..s_k))` used by the spec's
round-trip law (most-significant digit first). -/
def recompose : List Nat → List Nat → Nat
  | [], _ => 0
  | _, [] => 0
  | l :: ls, _ :: ss => l * ss.prod + recompose ls ss

/-- Least-significant-first reconstruction, matching `mixedRadixLoop`. -/
def recomposeRev : List Nat → List Nat → Nat
  | [], _ => 0
  | _, [] => 0
  | l :: ls, s :: ss => l + s * recomposeRev ls ss


/-! ## Template parsing and validation
(`TemplateProcessor.parse_and_validate_template` in
`src/libs/template_processor.py`; the identical logic is inlined as
`ExhaustivePromptCombinator._parse_and_validate_template` in
`src/nodes/prompt_combinator.py`). -/

/-- Numeric value of a decimal digit character. -/
def digitVal (c : Char) : Nat := c.toNat - '0'.toNat

/-- Split a leading run of decimal digits from a character list. -/
def takeDigits : List Char → List Char × List Char
  | [] => ([], [])
  | c :: rest =>
    if c.isDigit then
      let p := takeDigits rest
      (c :: p.1, p.2)
    else ([], c :: rest)

/-- `int(...)` on a digit string. -/
def digitsToNat (ds : List Char) : Nat :=
  ds.foldl (fun n c => 10 * n + digitVal c) 0

/-- One left-to-right, non-overlapping scan for the regex `\[(\d+)\]`, as
`re.findall` performs it: at `[` try to read one or more digits followed
by `]`; on success emit the number and resume after the `]`, otherwise
resume one character later.  Fuel-driven so the definition is structural
(the fuel `cs.length` always suffices because every step consumes at
least one character). -/
def findAnchorsFuel : Nat → List Char → List Nat
  | 0, _ => []
  | _, [] => []
  | fuel + 1, c :: rest =>
    if c = '[' then
      match takeDigits rest with
      | ([], _) => findAnchorsFuel fuel rest
      | (d :: ds, ']' :: r2) => digitsToNat (d :: ds) :: findAnchorsFuel fuel r2
      | (_ :: _, _) => findAnchorsFuel fuel rest
    else findAnchorsFuel fuel rest

/-- All anchor numbers found in a template, in match order, duplicates
included: `re.findall(r"\[(\d+)\]", template_text)` mapped through `int`. -/
def findAnchors (cs : List Char) : List Nat :=
  findAnchorsFuel cs.length cs

/-- `sorted(list(set(map(int, re.findall(...)))))`: the distinct anchor
numbers, ascending. -/
def anchorNumbers (template_text : String) : List Nat :=
  List.insertionSort (· ≤ ·) (findAnchors template_text.toList).dedup

/-- `str.split('\n')`. -/
def splitLines : List Char → List (List Char)
  | [] => [[]]
  | c :: rest =>
    if c = '\n' then [] :: splitLines rest
    else
      match splitLines rest with
      | [] => [[c]]
      | l :: ls => (c :: l) :: ls

/-- `str.strip()` (whitespace on both ends). -/
def trimChars (l : List Char) : List Char :=
  ((l.dropWhile Char.isWhitespace).reverse.dropWhile Char.isWhitespace).reverse

/-- `[line.strip() for line in pool_text.split('\n') if line.strip()]`. -/
def parse_pool_text (pool_text : String) : List String :=
  ((splitLines pool_text.toList).map (fun l => String.mk (trimChars l))).filter
    (fun line => line ≠ "")

/-- The `ValueError` message raised for an anchor whose pool is empty. -/
def errMsg (i : Nat) : String :=
  "ERROR: 模板中使用了锚点 [" ++ toString i ++ "]，但提示词池 " ++ toString i ++
    " 为空，请补充内容。"

/-- The validation loop `for i in range(1, max_anchor + 1)`: collect the
pool of every anchor that is used, raising on the first used anchor whose
pool parses to zero lines.  `pools i` is `pool_data.get(f"pool_i_text", "")`. -/
def validatePools (pools : Nat → String) (anchors : List Nat) :
    List Nat → Except String (List (List String) × List Nat)
  | [] => .ok ([], [])
  | i :: rest =>
    let pool_list := parse_pool_text (pools i)
    if i ∈ anchors then
      if pool_list = [] then .error (errMsg i)
      else
        match validatePools pools anchors rest with
        | .error e => .error e
        | .ok (ps, ns) => .ok (pool_list :: ps, i :: ns)
    else validatePools pools anchors rest

/-- `parse_and_validate_template`: returns `([[]], [])` when the template
has no anchors, otherwise validates pools `1..max(anchors)` and returns
`(valid_pools, used_anchor_numbers)` or the first validation error. -/
def parse_and_validate_template (template_text : String) (pools : Nat → String) :
    Except String (List (List String) × List Nat) :=
  let anchors := anchorNumbers template_text
  if anchors = [] then .ok ([[]], [])
  else validatePools pools anchors (List.range' 1 (anchors.foldr max 0))

/-! ## `ExhaustivePromptCombinator.execute` (`src/nodes/prompt_combinator.py`) -/

/-- The persisted state record `exhaustive_state.json`:
`{"global_index": ..., "last_input_hash": ..., "is_completed": ...}`. -/
structure PState where
  global_index : Nat
  last_input_hash : String
  is_completed : Bool
deriving DecidableEq, Repr

/-- The inputs of one invocation.  `pools i` models
`kwargs.get(f"pool_i_text", "")` (unsupplied pools default to `""`). -/
structure ExecInput where
  template_text : String
  start_index : Nat
  max_combinations : Nat
  auto_queue : Bool
  pools : Nat → String

/-- `_calculate_input_hash`: MD5 over
`f"{template_text}|{max_combinations}"` followed by `"|" + pool_i_text`
for `i` in 1..15.  The digest itself is an arbitrary function parameter. -/
def calc_input_hash (md5 : String → String) (inp : ExecInput) : String :=
  md5 (inp.template_text ++ "|" ++ toString inp.max_combinations ++
    String.join ((List.range' 1 15).map (fun i => "|" ++ inp.pools i)))

/-- The value returned by `execute`: the normal path returns the 2-tuple
`(final_prompt, log_info)`; the validation-error and exhausted paths
return 5-tuples `(text, log, index, total, flag)`. -/
inductive ExecOutput where
  | tuple2 (prompt log : String)
  | tuple5 (prompt log : String) (index total : Nat) (flag : Bool)
deriving DecidableEq, Repr

/-- How many elements the returned Python tuple has. -/
def ExecOutput.arity : ExecOutput → Nat
  | .tuple2 .. => 2
  | .tuple5 .. => 5

/-- Result of one invocation: the returned tuple, the in-memory state at
return, whether `_save_state` was called (the persisted file changes only
when it was), and whether the auto-queue signal was emitted. -/
structure ExecResult where
  output : ExecOutput
  state : PState
  saved : Bool
  queued : Bool
deriving DecidableEq, Repr

/-- `re.sub(pattern, repl, s, 1)` for a literal pattern: replace the first
occurrence only. -/
def replaceFirst : List Char → List Char → List Char → List Char
  | [], _, _ => []
  | c :: rest, pat, rep =>
    if pat.isPrefixOf (c :: rest) then rep ++ (c :: rest).drop pat.length
    else c :: replaceFirst rest pat rep

/-- The substitution loop of step 5: for each `(local_idx, pool_list,
anchor_num)` replace the first occurrence of `[anchor_num]` by
`pool_list[local_idx]` and record a log line.  In-range indexing is
guaranteed by validation; `getD` supplies `""` out of range. -/
def substLoop : String → List (Nat × List String × Nat) → String × List String
  | t, [] => (t, [])
  | t, (local_idx, pool_list, anchor_num) :: rest =>
    let part := pool_list.getD local_idx ""
    let pat := "[" ++ toString anchor_num ++ "]"
    let t2 := String.mk (replaceFirst t.toList pat.toList part.toList)
    let detail := "  - 锚点 [" ++ toString anchor_num ++ "]: 索引 " ++
      toString local_idx ++ "/" ++ toString pool_list.length ++ " -> \"" ++ part ++ "\""
    let p := substLoop t2 rest
    (p.1, detail :: p.2)

/-- The `log_msg` of the loop-termination branch (step 4). -/
def stopMsg (total : Nat) : String :=
  "[INFO] 穷举组合已完成或达到 " ++ toString total ++ " 的限制，停止循环。"

/-- The `log_info` of the normal path (step 6).  The source renders the
progress percentage as a 2-decimal float; here it is the integer percent
(no claim inspects this log's content). -/
def buildLogInfo (current_index total : Nat) (is_completed : Bool)
    (details : List String) : String :=
  "[任务进程]: " ++ toString (current_index + 1) ++ " / " ++ toString total ++
    " (" ++ toString ((current_index + 1) * 100 / total) ++ "%)\n" ++
    "当前索引位置: " ++ toString current_index ++ "\n" ++
    "总组合数: " ++ toString total ++ "\n" ++
    "任务是否全部完成（防止再次循环）: " ++
    (if is_completed then "True" else "False") ++ "\n" ++
    "[任务拼接详情]:\n" ++ String.intercalate "\n" details

/-- `if max_combinations > 0 and total_combinations > max_combinations:
total_combinations = max_combinations` (step 3). -/
def effective_total (max_combinations total0 : Nat) : Nat :=
  if max_combinations > 0 ∧ total0 > max_combinations then max_combinations else total0

/-- Step 3's base count: `math.prod(pool_sizes) if pool_sizes else 1`
over `pool_sizes = [len(pool) for pool in valid_pools]`. -/
def pools_total (valid_pools : List (List String)) : Nat :=
  if valid_pools.map List.length = [] then 1 else (valid_pools.map List.length).prod

/-- Step 1 of `execute`: input-consistency check.  A hash change hard
resets the in-memory state; a nonzero `start_index` differing from the
persisted index soft resets it; otherwise the state is kept. -/
def reset_stage (current_hash : String) (start_index : Nat) (state0 : PState) : PState :=
  if current_hash ≠ state0.last_input_hash then
    { global_index := if start_index > 0 then start_index else 0,
      last_input_hash := current_hash, is_completed := false }
  else if start_index ≠ state0.global_index ∧ start_index ≠ 0 then
    { state0 with global_index := start_index, is_completed := false }
  else state0

/-- Steps 2-9 of `execute`, after the reset stage:
2. template/pool validation (error path returns a 5-tuple without saving);
3. total-combination count, capped by `max_combinations`;
4. loop-termination branch (persists `is_completed=True, global_index=0`);
5./6. mixed-radix addressing, substitution and log;
7./8. index step or completion, with an immediate save;
9. auto-queue signal when `auto_queue` and not the last item. -/
def execute_core (inp : ExecInput) (state1 : PState) : ExecResult :=
  match parse_and_validate_template inp.template_text inp.pools with
  | .error e =>
    { output := .tuple5 inp.template_text e state1.global_index 0 true,
      state := state1, saved := false, queued := false }
  | .ok (valid_pools, used_anchor_numbers) =>
    let total_combinations := effective_total inp.max_combinations (pools_total valid_pools)
    if state1.global_index ≥ total_combinations ∨ state1.is_completed = true then
      { output := .tuple5 inp.template_text (stopMsg total_combinations) 0
          total_combinations true,
        state := { state1 with is_completed := true, global_index := 0 },
        saved := true, queued := false }
    else
      let local_indices := get_mixed_radix_indices state1.global_index
        (valid_pools.map List.length)
      let p := substLoop inp.template_text
        (local_indices.zip (valid_pools.zip used_anchor_numbers))
      let log_info := buildLogInfo state1.global_index total_combinations
        state1.is_completed p.2
      if state1.global_index ≥ total_combinations - 1 then
        let stepped : PState := { state1 with is_completed := true, global_index := 0 }
        { output := .tuple2 p.1 log_info, state := stepped, saved := true, queued := false }
      else
        let stepped : PState := { state1 with global_index := state1.global_index + 1, is_completed := false }
        { output := .tuple2 p.1 log_info, state := stepped, saved := true, queued := inp.auto_queue }

/-- `ExhaustivePromptCombinator.execute`: the reset stage followed by the
validation/addressing/stepping core. -/
def execute (md5 : String → String) (inp : ExecInput) (state0 : PState) : ExecResult :=
  execute_core inp (reset_stage (calc_input_hash md5 inp) inp.start_index state0)

/-! ## `ComfyUIAutoQueue.process_queue` (`src/libs/auto_queue.py`) -/

/-- `process_queue`: returns `(is_done, next_index, new persisted state,
queued)`.  Every branch calls `save_state` on the updated state. -/
def process_queue (current_index total_items : Nat) (auto_queue : Bool)
    (st : PState) : Bool × Nat × PState × Bool :=
  if current_index ≥ total_items ∨ st.is_completed then
    (true, 0, { st with is_completed := true, global_index := 0 }, false)
  else
    let is_last_item := current_index ≥ total_items - 1
    if is_last_item then
      (false, 0, { st with is_completed := true, global_index := 0 }, false)
    else
      (false, current_index + 1,
        { st with global_index := current_index + 1, is_completed := false },
        auto_queue)

/-! ## `AutoQueueLoopController` (`src/nodes/auto_queue_loop.py`) -/

/-- The controller's persisted record `auto_queue_state.json`. -/
structure CtrlState where
  global_index : Nat
  last_input_hash : String
  is_completed : Bool
  workflow_started : Bool
  last_mode : String
  last_start_index : Int
deriving DecidableEq, Repr

/-- `_determine_index_and_reset`: returns the index to use, the in-memory
state, and whether `_save_state` was called. -/
def determine_index_and_reset (st : CtrlState) (index_mode : String)
    (start_index : Nat) (config_hash : String) : Nat × CtrlState × Bool :=
  let is_new_workflow := ¬ st.workflow_started ∨ st.last_input_hash ≠ config_hash
  if is_new_workflow then
    if index_mode = "From Start" then
      let st' : CtrlState := { st with global_index := 0, is_completed := false, workflow_started := true, last_mode := "From Start", last_start_index := 0, last_input_hash := config_hash }
      (0, st', true)
    else if index_mode = "Specified" then
      let st' : CtrlState := { st with global_index := start_index, is_completed := false, workflow_started := true, last_mode := "Specified", last_start_index := start_index, last_input_hash := config_hash }
      (start_index, st', true)
    else
      if st.last_input_hash ≠ config_hash ∨ st.is_completed then
        let st' : CtrlState := { st with global_index := 0, is_completed := false, workflow_started := true, last_mode := "Auto", last_start_index := 0, last_input_hash := config_hash }
        (0, st', true)
      else
        (st.global_index, { st with workflow_started := true, last_mode := "Auto" }, true)
  else
    (st.global_index, st, false)

/-- `_handle_step_and_terminate`: returns (should_continue, saved state).
Case 1 (true end): reset to 0, completed.  Case 2 (user limit): keep the
next index, not completed.  Case 3: step and continue. -/
def handle_step_and_terminate (st : CtrlState)
    (global_index total_count effective_limit : Nat) (config_hash : String) :
    Bool × CtrlState :=
  let next_index := global_index + 1
  if global_index ≥ total_count - 1 then
    (false, { st with global_index := 0, is_completed := true, workflow_started := false, last_input_hash := config_hash })
  else if global_index ≥ effective_limit - 1 then
    (false, { st with global_index := next_index, is_completed := false, workflow_started := false, last_input_hash := config_hash })
  else
    (true, { st with global_index := next_index, is_completed := false, workflow_started := true, last_input_hash := config_hash })

/-! ## `StateManager.calculate_input_hash` (`src/libs/state_manager.py`) -/

/-- The control keys excluded from the fingerprint when `include_keys` is
`None`. -/
def sm_exclude_keys : List String := ["start_index", "auto_queue", "extra_pnginfo"]

/-- The `data_string`: drop excluded keys, sort the remaining `key:value`
pairs by key, join with `"|"`.  A Python dict is modelled as an
association list in insertion order with distinct keys; values are taken
already stringified (`f"{k}:{v}"`). -/
def sm_data_string (inputs : List (String × String)) : String :=
  let data_dict := inputs.filter (fun kv => ¬ kv.1 ∈ sm_exclude_keys)
  let sorted_items := List.insertionSort (fun a b => a.1 ≤ b.1) data_dict
  String.intercalate "|" (sorted_items.map (fun kv => kv.1 ++ ":" ++ kv.2))

/-- `calculate_input_hash` with `include_keys=None`: the MD5 digest
(an arbitrary function parameter) of the data string. -/
def sm_calculate_input_hash (md5 : String → String)
    (inputs : List (String × String)) : String :=
  md5 (sm_data_string inputs)

/-! ## Concrete configurations used by counterexamples and witnesses -/

/-- A pool assignment supplying only `pool_1_text`. -/
def exPools1 (txt : String) : Nat → String := fun i => if i = 1 then txt else ""

/-- Template `[1]`, pool 1 of size 2 (space size 2), no user limit. -/
def exInp2 : ExecInput :=
  { template_text := "[1]", start_index := 0, max_combinations := 0,
    auto_queue := true, pools := exPools1 "a\nb" }

/-- Persisted state at the last combination of `exInp2`'s space, with a
matching fingerprint. -/
def exSt2 : PState :=
  { global_index := 1, last_input_hash := calc_input_hash id exInp2, is_completed := false }

/-- Template `[1]`, pool 1 of size 3 (space size 3), user ceiling 2. -/
def exInp3 : ExecInput :=
  { template_text := "[1]", start_index := 0, max_combinations := 2,
    auto_queue := true, pools := exPools1 "a\nb\nc" }

/-- Persisted state at the last index under `exInp3`'s ceiling, matching
fingerprint. -/
def exSt3 : PState :=
  { global_index := 1, last_input_hash := calc_input_hash id exInp3, is_completed := false }

/-- Template `[1]`, pool 1 of size 4, nonzero `start_index = 1`. -/
def exInp4 : ExecInput :=
  { template_text := "[1]", start_index := 1, max_combinations := 0,
    auto_queue := true, pools := exPools1 "a\nb\nc\nd" }

/-- Persisted state at index 1 for `exInp4`, matching fingerprint. -/
def exSt4 : PState :=
  { global_index := 1, last_input_hash := calc_input_hash id exInp4, is_completed := false }

/-- A template with no anchors at all. -/
def exInp7 : ExecInput :=
  { template_text := "hello", start_index := 0, max_combinations := 0,
    auto_queue := true, pools := fun _ => "" }

/-- Fresh persisted state with matching fingerprint for `exInp7`. -/
def exSt7 : PState :=
  { global_index := 0, last_input_hash := calc_input_hash id exInp7, is_completed := false }

/-- Template `[1]` with every pool unsupplied (validation error). -/
def exInp8 : ExecInput :=
  { template_text := "[1]", start_index := 0, max_combinations := 0,
    auto_queue := true, pools := fun _ => "" }

/-- Default persisted state (fresh install) for `exInp8`. -/
def exSt8 : PState :=
  { global_index := 0, last_input_hash := "", is_completed := false }

/-- Template `[1]`, pool 1 of size 4, `start_index = 0` (for the
single-step witness). -/
def exInp5 : ExecInput :=
  { template_text := "[1]", start_index := 0, max_combinations := 0,
    auto_queue := true, pools := exPools1 "a\nb\nc\nd" }

/-- Fresh persisted state with matching fingerprint for `exInp5`. -/
def exSt5 : PState :=
  { global_index := 0, last_input_hash := calc_input_hash id exInp5, is_completed := false }

/-! ## Mixed-radix addressing: claims C1 and C10 -/

theorem calculate_total_combinations_eq_prod (ss : List Nat) :
    calculate_total_combinations ss = ss.prod := by
  cases ss <;> simp [calculate_total_combinations]

theorem mixedRadixLoop_forall₂ (ss : List Nat) (hpos : ∀ s ∈ ss, 0 < s) :
    ∀ g, List.Forall₂ (· < ·) (mixedRadixLoop g ss) ss := by
  induction ss with
  | nil => intro g; simp [mixedRadixLoop]
  | cons s rest ih =>
    intro g
    have hs : 0 < s := hpos s (by simp)
    have hrest : ∀ s' ∈ rest, 0 < s' := fun s' h => hpos s' (by simp [h])
    simp only [mixedRadixLoop, if_neg (Nat.pos_iff_ne_zero.mp hs)]
    exact List.Forall₂.cons (Nat.mod_lt _ hs) (ih hrest _)

theorem recomposeRev_mixedRadixLoop (ss : List Nat) (hpos : ∀ s ∈ ss, 0 < s) :
    ∀ g, recomposeRev (mixedRadixLoop g ss) ss = g % ss.prod := by
  induction ss with
  | nil => intro g; simp [mixedRadixLoop, recomposeRev, Nat.mod_one]
  | cons s rest ih =>
    intro g
    have hs : 0 < s := hpos s (by simp)
    have hrest : ∀ s' ∈ rest, 0 < s' := fun s' h => hpos s' (by simp [h])
    simp only [mixedRadixLoop, if_neg (Nat.pos_iff_ne_zero.mp hs), recomposeRev,
      List.prod_cons, ih hrest]
    exact (Nat.mod_mul).symm

theorem mixedRadixLoop_recomposeRev (ss : List Nat) (hpos : ∀ s ∈ ss, 0 < s) :
    ∀ v, List.Forall₂ (· < ·) v ss →
      mixedRadixLoop (recomposeRev v ss) ss = v := by
  induction ss with
  | nil =>
    intro v hv
    cases hv
    simp [mixedRadixLoop]
  | cons s rest ih =>
    intro v hv
    cases hv with
    | cons hls hrest2 =>
      rename_i l ls
      have hs : 0 < s := hpos s (by simp)
      have hrest : ∀ s' ∈ rest, 0 < s' := fun s' h => hpos s' (by simp [h])
      simp only [recomposeRev, mixedRadixLoop, if_neg (Nat.pos_iff_ne_zero.mp hs)]
      have h1 : (l + s * recomposeRev ls rest) % s = l := by
        rw [Nat.add_mul_mod_self_left]
        exact Nat.mod_eq_of_lt hls
      have h2 : (l + s * recomposeRev ls rest) / s = recomposeRev ls rest := by
        rw [Nat.add_mul_div_left _ _ hs, Nat.div_eq_of_lt hls, Nat.zero_add]
      rw [h1, h2, ih hrest ls hrest2]

theorem recomposeRev_lt (ss : List Nat) :
    ∀ v, List.Forall₂ (· < ·) v ss → recomposeRev v ss < ss.prod := by
  induction ss with
  | nil =>
    intro v hv
    cases hv
    simp [recomposeRev]
  | cons s rest ih =>
    intro v hv
    cases hv with
    | cons hls hrest2 =>
      rename_i l ls
      have hr : recomposeRev ls rest < rest.prod := ih ls hrest2
      simp only [recomposeRev, List.prod_cons]
      calc l + s * recomposeRev ls rest
          < s + s * recomposeRev ls rest := by omega
        _ = s * (recomposeRev ls rest + 1) := by ring
        _ ≤ s * rest.prod := Nat.mul_le_mul_left s hr

theorem mixedRadixLoop_mod (ss : List Nat) (hpos : ∀ s ∈ ss, 0 < s) (g : Nat) :
    mixedRadixLoop g ss = mixedRadixLoop (g % ss.prod) ss := by
  have h1 := recomposeRev_mixedRadixLoop ss hpos g
  have h2 := mixedRadixLoop_recomposeRev ss hpos (mixedRadixLoop g ss)
    (mixedRadixLoop_forall₂ ss hpos g)
  calc mixedRadixLoop g ss
      = mixedRadixLoop (recomposeRev (mixedRadixLoop g ss) ss) ss := h2.symm
    _ = mixedRadixLoop (g % ss.prod) ss := by rw [h1]

theorem get_mixed_radix_indices_eq (g : Nat) (ss : List Nat) :
    get_mixed_radix_indices g ss = (mixedRadixLoop g ss.reverse).reverse := by
  cases ss <;> simp [get_mixed_radix_indices, mixedRadixLoop]

theorem recomposeRev_snoc (x y : Nat) :
    ∀ xs ys : List Nat, xs.length = ys.length →
      recomposeRev (xs ++ [x]) (ys ++ [y]) = recomposeRev xs ys + ys.prod * x := by
  intro xs
  induction xs with
  | nil =>
    intro ys h
    cases ys with
    | nil => simp [recomposeRev]
    | cons _ _ => simp at h
  | cons l ls ih =>
    intro ys h
    cases ys with
    | nil => simp at h
    | cons s rest =>
      simp only [List.length_cons, Nat.succ.injEq] at h
      have hih := ih rest h
      simp only [List.cons_append, recomposeRev, List.prod_cons, List.append_eq]
      rw [hih]
      ring

theorem recompose_eq_rev :
    ∀ ls ss : List Nat, ls.length = ss.length →
      recompose ls ss = recomposeRev ls.reverse ss.reverse := by
  intro ls
  induction ls with
  | nil =>
    intro ss h
    cases ss with
    | nil => simp [recompose, recomposeRev]
    | cons _ _ => simp at h
  | cons l ls ih =>
    intro ss h
    cases ss with
    | nil => simp at h
    | cons s rest =>
      simp only [List.length_cons, Nat.succ.injEq] at h
      simp only [recompose, List.reverse_cons]
      rw [recomposeRev_snoc l s ls.reverse rest.reverse (by simp [h]), ih rest h,
        List.prod_reverse]
      ring

theorem forall₂_lt_reverse {v ss : List Nat} (h : List.Forall₂ (· < ·) v ss) :
    List.Forall₂ (· < ·) v.reverse ss.reverse :=
  List.forall₂_reverse_iff.mpr h

theorem get_forall₂ (ss : List Nat) (hpos : ∀ s ∈ ss, 0 < s) (g : Nat) :
    List.Forall₂ (· < ·) (get_mixed_radix_indices g ss) ss := by
  rw [get_mixed_radix_indices_eq]
  have hrev : ∀ s ∈ ss.reverse, 0 < s := fun s h => hpos s (List.mem_reverse.mp h)
  have h := forall₂_lt_reverse (mixedRadixLoop_forall₂ ss.reverse hrev g)
  simpa using h

theorem recompose_get (ss : List Nat) (hpos : ∀ s ∈ ss, 0 < s) (g : Nat) :
    recompose (get_mixed_radix_indices g ss) ss = g % ss.prod := by
  have hlen : (get_mixed_radix_indices g ss).length = ss.length :=
    (get_forall₂ ss hpos g).length_eq
  rw [recompose_eq_rev _ _ hlen, get_mixed_radix_indices_eq, List.reverse_reverse]
  have hrev : ∀ s ∈ ss.reverse, 0 < s := fun s h => hpos s (List.mem_reverse.mp h)
  rw [recomposeRev_mixedRadixLoop ss.reverse hrev g, List.prod_reverse]

theorem get_recompose (ss : List Nat) (hpos : ∀ s ∈ ss, 0 < s) (v : List Nat)
    (hv : List.Forall₂ (· < ·) v ss) :
    get_mixed_radix_indices (recompose v ss) ss = v := by
  rw [recompose_eq_rev _ _ hv.length_eq, get_mixed_radix_indices_eq]
  have hrev : ∀ s ∈ ss.reverse, 0 < s := fun s h => hpos s (List.mem_reverse.mp h)
  rw [mixedRadixLoop_recomposeRev ss.reverse hrev v.reverse (forall₂_lt_reverse hv),
    List.reverse_reverse]

theorem recompose_lt (ss v : List Nat) (hv : List.Forall₂ (· < ·) v ss) :
    recompose v ss < ss.prod := by
  rw [recompose_eq_rev _ _ hv.length_eq]
  have h := recomposeRev_lt ss.reverse v.reverse (forall₂_lt_reverse hv)
  simpa [List.prod_reverse] using h

/-- C1: for every pool-size list with all sizes positive,
`get_mixed_radix_indices` satisfies the round-trip law
(`recompose` of the local indices reproduces the global index on
`[0, calculate_total_combinations ss)`), it is a bijection from that
range onto the box `[0,s_1) x ... x [0,s_k)` of local-index vectors,
and for sizes `[2, 3]` the indices 0..5 map in order to
`(0,0),(0,1),(0,2),(1,0),(1,1),(1,2)`. -/
theorem get_mixed_radix_indices_roundtrip_bijection (ss : List Nat)
    (hpos : ∀ s ∈ ss, 0 < s) :
    (∀ g, g < calculate_total_combinations ss →
        recompose (get_mixed_radix_indices g ss) ss = g) ∧
    Set.BijOn (fun g => get_mixed_radix_indices g ss)
      (Set.Iio (calculate_total_combinations ss))
      { v | List.Forall₂ (· < ·) v ss } ∧
    (List.range 6).map (fun g => get_mixed_radix_indices g [2, 3]) =
      [[0, 0], [0, 1], [0, 2], [1, 0], [1, 1], [1, 2]] := by
  rw [calculate_total_combinations_eq_prod]
  refine ⟨?_, ⟨?_, ?_, ?_⟩, ?_⟩
  · intro g hg
    rw [recompose_get ss hpos g, Nat.mod_eq_of_lt hg]
  · intro g _hg
    exact get_forall₂ ss hpos g
  · intro g1 h1 g2 h2 heq
    have e1 := recompose_get ss hpos g1
    have e2 := recompose_get ss hpos g2
    simp only [Set.mem_Iio] at h1 h2
    rw [Nat.mod_eq_of_lt h1] at e1
    rw [Nat.mod_eq_of_lt h2] at e2
    simp only at heq
    rw [← e1, ← e2, heq]
  · intro v hv
    exact ⟨recompose v ss, Set.mem_Iio.mpr (recompose_lt ss v hv),
      get_recompose ss hpos v hv⟩
  · decide

theorem get_mixed_radix_indices_roundtrip_bijection_witness :
    recompose (get_mixed_radix_indices 4 [2, 3]) [2, 3] = 4 :=
  (get_mixed_radix_indices_roundtrip_bijection [2, 3] (by decide)).1 4 (by decide)

/-- C10: for every non-negative global index (also out of range) and every
list of strictly positive pool sizes, `get_mixed_radix_indices` returns
exactly one local index per pool size, each local index is below its
pool size, and the result equals that for
`global_index % calculate_total_combinations` (out-of-range indices
wrap rather than error). -/
theorem get_mixed_radix_indices_total (g : Nat) (ss : List Nat)
    (hpos : ∀ s ∈ ss, 0 < s) :
    (get_mixed_radix_indices g ss).length = ss.length ∧
    List.Forall₂ (· < ·) (get_mixed_radix_indices g ss) ss ∧
    get_mixed_radix_indices g ss =
      get_mixed_radix_indices (g % calculate_total_combinations ss) ss := by
  refine ⟨(get_forall₂ ss hpos g).length_eq, get_forall₂ ss hpos g, ?_⟩
  rw [calculate_total_combinations_eq_prod, get_mixed_radix_indices_eq,
    get_mixed_radix_indices_eq]
  have hrev : ∀ s ∈ ss.reverse, 0 < s := fun s h => hpos s (List.mem_reverse.mp h)
  rw [mixedRadixLoop_mod ss.reverse hrev g, List.prod_reverse]

theorem get_mixed_radix_indices_total_witness :
    get_mixed_radix_indices 7 [2, 3] =
      get_mixed_radix_indices (7 % calculate_total_combinations [2, 3]) [2, 3] :=
  (get_mixed_radix_indices_total 7 [2, 3] (by decide)).2.2

/-! ## Helper lemmas about the engine -/

theorem pools_total_eq_prod (vps : List (List String)) :
    pools_total vps = (vps.map List.length).prod := by
  unfold pools_total
  by_cases h : vps.map List.length = [] <;> simp [h]

theorem effective_total_of_no_cap (m t : Nat) (h : m = 0 ∨ t ≤ m) :
    effective_total m t = t := by
  unfold effective_total
  rcases h with h | h
  · rw [if_neg]
    simp [h]
  · rw [if_neg]
    omega

theorem effective_total_of_cap (m t : Nat) (h1 : 0 < m) (h2 : m < t) :
    effective_total m t = m := by
  unfold effective_total
  rw [if_pos ⟨h1, h2⟩]

theorem reset_stage_keep (h : String) (st : PState) (hh : h = st.last_input_hash) :
    reset_stage h 0 st = st := by
  unfold reset_stage
  rw [if_neg (by simp [hh]), if_neg (by simp)]

theorem reset_stage_hard (h : String) (si : Nat) (st : PState)
    (hh : h ≠ st.last_input_hash) :
    reset_stage h si st =
      { global_index := if si > 0 then si else 0, last_input_hash := h,
        is_completed := false } := by
  unfold reset_stage
  rw [if_pos hh]

theorem execute_core_error (inp : ExecInput) (s1 : PState) (e : String)
    (herr : parse_and_validate_template inp.template_text inp.pools = .error e) :
    execute_core inp s1 =
      { output := .tuple5 inp.template_text e s1.global_index 0 true,
        state := s1, saved := false, queued := false } := by
  unfold execute_core
  rw [herr]

theorem execute_core_exhausted (inp : ExecInput) (s1 : PState)
    (vps : List (List String)) (nums : List Nat)
    (hok : parse_and_validate_template inp.template_text inp.pools = .ok (vps, nums))
    (h : s1.global_index ≥ effective_total inp.max_combinations (pools_total vps) ∨
      s1.is_completed = true) :
    execute_core inp s1 =
      { output := .tuple5 inp.template_text
          (stopMsg (effective_total inp.max_combinations (pools_total vps))) 0
          (effective_total inp.max_combinations (pools_total vps)) true,
        state := { s1 with is_completed := true, global_index := 0 },
        saved := true, queued := false } := by
  unfold execute_core
  rw [hok]
  simp only []
  rw [if_pos h]

theorem execute_core_step (inp : ExecInput) (s1 : PState)
    (vps : List (List String)) (nums : List Nat)
    (hok : parse_and_validate_template inp.template_text inp.pools = .ok (vps, nums))
    (h2 : s1.is_completed = false)
    (h3 : s1.global_index < effective_total inp.max_combinations (pools_total vps) - 1) :
    (execute_core inp s1).state =
      { s1 with global_index := s1.global_index + 1, is_completed := false } ∧
    (execute_core inp s1).saved = true ∧
    (execute_core inp s1).output.arity = 2 ∧
    (execute_core inp s1).queued = inp.auto_queue := by
  have hnot : ¬ (s1.global_index ≥ effective_total inp.max_combinations (pools_total vps) ∨
      s1.is_completed = true) := by
    rw [h2]
    simp only [Bool.false_eq_true, or_false]
    omega
  unfold execute_core
  rw [hok]
  simp only []
  rw [if_neg hnot, if_neg (by omega)]
  exact ⟨rfl, rfl, rfl, rfl⟩

theorem execute_core_last (inp : ExecInput) (s1 : PState)
    (vps : List (List String)) (nums : List Nat)
    (hok : parse_and_validate_template inp.template_text inp.pools = .ok (vps, nums))
    (h1 : s1.global_index < effective_total inp.max_combinations (pools_total vps))
    (h2 : s1.is_completed = false)
    (h3 : s1.global_index ≥ effective_total inp.max_combinations (pools_total vps) - 1) :
    (execute_core inp s1).state = { s1 with is_completed := true, global_index := 0 } ∧
    (execute_core inp s1).saved = true ∧
    (execute_core inp s1).output.arity = 2 ∧
    (execute_core inp s1).queued = false := by
  have hnot : ¬ (s1.global_index ≥ effective_total inp.max_combinations (pools_total vps) ∨
      s1.is_completed = true) := by
    rw [h2]
    simp only [Bool.false_eq_true, or_false]
    omega
  unfold execute_core
  rw [hok]
  simp only []
  rw [if_neg hnot, if_pos h3]
  exact ⟨rfl, rfl, rfl, rfl⟩

theorem execute_core_written_char (inp : ExecInput) (s1 : PState) :
    (execute_core inp s1).saved = false ∨
    ((execute_core inp s1).state.is_completed = true ∧
      (execute_core inp s1).state.global_index = 0) ∨
    (execute_core inp s1).state.is_completed = false := by
  unfold execute_core
  cases hp : parse_and_validate_template inp.template_text inp.pools with
  | error e => left; rfl
  | ok v =>
    obtain ⟨vps, nums⟩ := v
    simp only []
    by_cases h1 : s1.global_index ≥ effective_total inp.max_combinations (pools_total vps) ∨
        s1.is_completed = true
    · right; left
      rw [if_pos h1]
      exact ⟨rfl, rfl⟩
    · rw [if_neg h1]
      by_cases h3 : s1.global_index ≥ effective_total inp.max_combinations (pools_total vps) - 1
      · right; left
        rw [if_pos h3]
        exact ⟨rfl, rfl⟩
      · right; right
        rw [if_neg h3]

theorem process_queue_written_inv (ci ti : Nat) (aq : Bool) (st : PState)
    (hc : (process_queue ci ti aq st).2.2.1.is_completed = true) :
    (process_queue ci ti aq st).2.2.1.global_index = 0 := by
  unfold process_queue at hc ⊢
  by_cases h1 : ci ≥ ti ∨ st.is_completed = true
  · rw [if_pos h1]
  · rw [if_neg h1] at hc ⊢
    simp only [] at hc ⊢
    by_cases h2 : ci ≥ ti - 1
    · rw [if_pos h2]
    · rw [if_neg h2] at hc
      simp at hc

theorem determine_written_inv (st : CtrlState) (mode : String) (si : Nat)
    (hash : String)
    (hsaved : (determine_index_and_reset st mode si hash).2.2 = true)
    (hc : (determine_index_and_reset st mode si hash).2.1.is_completed = true) :
    (determine_index_and_reset st mode si hash).2.1.global_index = 0 := by
  unfold determine_index_and_reset at hsaved hc ⊢
  simp only [] at hsaved hc ⊢
  by_cases h1 : ¬st.workflow_started = true ∨ st.last_input_hash ≠ hash
  · rw [if_pos h1] at hc ⊢
    by_cases h2 : mode = "From Start"
    · rw [if_pos h2]
    · rw [if_neg h2] at hc ⊢
      by_cases h3 : mode = "Specified"
      · rw [if_pos h3] at hc
        simp at hc
      · rw [if_neg h3] at hc ⊢
        by_cases h4 : st.last_input_hash ≠ hash ∨ st.is_completed = true
        · rw [if_pos h4]
        · rw [if_neg h4] at hc
          exfalso
          push_neg at h4
          exact absurd hc (by simpa using h4.2)
  · rw [if_neg h1] at hsaved
    simp at hsaved

theorem handle_step_written_inv (st : CtrlState) (g tc lim : Nat) (hash : String)
    (hc : (handle_step_and_terminate st g tc lim hash).2.is_completed = true) :
    (handle_step_and_terminate st g tc lim hash).2.global_index = 0 := by
  unfold handle_step_and_terminate at hc ⊢
  simp only [] at hc ⊢
  by_cases h1 : g ≥ tc - 1
  · rw [if_pos h1]
  · rw [if_neg h1] at hc ⊢
    by_cases h2 : g ≥ lim - 1
    · rw [if_pos h2] at hc
      simp at hc
    · rw [if_neg h2] at hc
      simp at hc

theorem le_foldr_max {a : Nat} : ∀ {l : List Nat}, a ∈ l → a ≤ l.foldr max 0 := by
  intro l
  induction l with
  | nil => intro h; cases h
  | cons b t ih =>
    intro h
    rcases List.mem_cons.mp h with h | h
    · subst h
      exact le_max_left _ _
    · exact le_trans (ih h) (le_max_right _ _)

theorem validatePools_error (pools : Nat → String) (anchors : List Nat) :
    ∀ L : List Nat, (∃ i ∈ L, i ∈ anchors ∧ parse_pool_text (pools i) = []) →
      ∃ n ∈ L, n ∈ anchors ∧ parse_pool_text (pools n) = [] ∧
        validatePools pools anchors L = .error (errMsg n) := by
  intro L
  induction L with
  | nil =>
    rintro ⟨i, hi, _⟩
    cases hi
  | cons j rest ih =>
    rintro ⟨i, hiL, hia, hie⟩
    by_cases hj : j ∈ anchors
    · by_cases hje : parse_pool_text (pools j) = []
      · refine ⟨j, by simp, hj, hje, ?_⟩
        unfold validatePools
        simp only []
        rw [if_pos hj, if_pos hje]
      · have hir : i ∈ rest := by
          rcases List.mem_cons.mp hiL with h | h
          · exact absurd (h ▸ hie) hje
          · exact h
        obtain ⟨n, hnr, hna, hne, hval⟩ := ih ⟨i, hir, hia, hie⟩
        refine ⟨n, by simp [hnr], hna, hne, ?_⟩
        unfold validatePools
        simp only []
        rw [if_pos hj, if_neg hje, hval]
    · have hir : i ∈ rest := by
        rcases List.mem_cons.mp hiL with h | h
        · exact absurd (h ▸ hia) hj
        · exact h
      obtain ⟨n, hnr, hna, hne, hval⟩ := ih ⟨i, hir, hia, hie⟩
      refine ⟨n, by simp [hnr], hna, hne, ?_⟩
      unfold validatePools
      simp only []
      rw [if_neg hj, hval]

/-! ## Claim theorems -/

/-- C2 (amended): with a valid configuration (validation succeeds, space
size at least 1, no smaller user ceiling), matching fingerprint,
`start_index = 0` and persisted `global_index = space_size - 1`, one
invocation persists `is_completed = true` and `global_index = 0`.  A
subsequent invocation with the same fingerprint does NOT restart: it
keeps `is_completed = true`, `global_index = 0` and returns the terminal
5-tuple.  A restart at index 0 with `is_completed = false` happens on a
fingerprint change (hard reset). -/
theorem hard_stop_behavior (md5 : String → String) (inp : ExecInput) (st : PState)
    (vps : List (List String)) (nums : List Nat)
    (hok : parse_and_validate_template inp.template_text inp.pools = .ok (vps, nums))
    (hspace : 1 ≤ (vps.map List.length).prod)
    (hmax : inp.max_combinations = 0 ∨ (vps.map List.length).prod ≤ inp.max_combinations)
    (hstart : inp.start_index = 0)
    (hhash : st.last_input_hash = calc_input_hash md5 inp)
    (hnc : st.is_completed = false)
    (hidx : st.global_index = (vps.map List.length).prod - 1) :
    (execute md5 inp st).state = { global_index := 0, last_input_hash := st.last_input_hash, is_completed := true } ∧
    (execute md5 inp st).saved = true ∧
    (execute md5 inp (execute md5 inp st).state).state = { global_index := 0, last_input_hash := st.last_input_hash, is_completed := true } ∧
    (execute md5 inp (execute md5 inp st).state).output.arity = 5 ∧
    (∀ st2 : PState, st2.last_input_hash ≠ calc_input_hash md5 inp →
      (execute md5 inp st2).output.arity = 2 ∧
      (2 ≤ (vps.map List.length).prod →
        (execute md5 inp st2).state = { global_index := 1, last_input_hash := calc_input_hash md5 inp, is_completed := false })) := by
  have hT : effective_total inp.max_combinations (pools_total vps) =
      (vps.map List.length).prod := by
    rw [pools_total_eq_prod]
    exact effective_total_of_no_cap _ _ hmax
  have hrs : reset_stage (calc_input_hash md5 inp) inp.start_index st = st := by
    rw [hstart]
    exact reset_stage_keep _ _ hhash.symm
  have h1 : execute md5 inp st = execute_core inp st := by
    unfold execute
    rw [hrs]
  have hlast := execute_core_last inp st vps nums hok (by omega) hnc (by omega)
  have hstate1 : (execute md5 inp st).state =
      { global_index := 0, last_input_hash := st.last_input_hash, is_completed := true } := by
    rw [h1, hlast.1]
  have hrs2 : reset_stage (calc_input_hash md5 inp) inp.start_index
      ({ global_index := 0, last_input_hash := st.last_input_hash, is_completed := true } : PState) =
      { global_index := 0, last_input_hash := st.last_input_hash, is_completed := true } := by
    rw [hstart]
    exact reset_stage_keep _ _ hhash.symm
  have h2 : execute md5 inp ({ global_index := 0, last_input_hash := st.last_input_hash, is_completed := true } : PState) =
      execute_core inp { global_index := 0, last_input_hash := st.last_input_hash, is_completed := true } := by
    unfold execute
    rw [hrs2]
  have hex2 := execute_core_exhausted inp
    ({ global_index := 0, last_input_hash := st.last_input_hash, is_completed := true } : PState)
    vps nums hok (Or.inr rfl)
  refine ⟨hstate1, ?_, ?_, ?_, ?_⟩
  · rw [h1]
    exact hlast.2.1
  · rw [hstate1, h2, hex2]
  · rw [hstate1, h2, hex2]
    rfl
  · intro st2 hne
    have hrs3 : reset_stage (calc_input_hash md5 inp) inp.start_index st2 =
        { global_index := 0, last_input_hash := calc_input_hash md5 inp, is_completed := false } := by
      rw [reset_stage_hard _ _ _ (Ne.symm hne), hstart]
      simp
    have h3 : execute md5 inp st2 =
        execute_core inp { global_index := 0, last_input_hash := calc_input_hash md5 inp, is_completed := false } := by
      unfold execute
      rw [hrs3]
    by_cases hsp2 : 2 ≤ (vps.map List.length).prod
    · have hstep := execute_core_step inp
        ({ global_index := 0, last_input_hash := calc_input_hash md5 inp, is_completed := false } : PState)
        vps nums hok rfl (by show 0 < effective_total inp.max_combinations (pools_total vps) - 1; omega)
      refine ⟨?_, fun _ => ?_⟩
      · rw [h3]
        exact hstep.2.2.1
      · rw [h3, hstep.1]
    · have hlast2 := execute_core_last inp
        ({ global_index := 0, last_input_hash := calc_input_hash md5 inp, is_completed := false } : PState)
        vps nums hok (by show 0 < effective_total inp.max_combinations (pools_total vps); omega) rfl
        (by show 0 ≥ effective_total inp.max_combinations (pools_total vps) - 1; omega)
      refine ⟨?_, fun hsp => absurd hsp hsp2⟩
      rw [h3]
      exact hlast2.2.2.1

theorem hard_stop_behavior_witness :
    (execute id exInp2 exSt2).state = { global_index := 0, last_input_hash := exSt2.last_input_hash, is_completed := true } :=
  (hard_stop_behavior id exInp2 exSt2 [["a", "b"]] [1] rfl (by decide) (Or.inl rfl)
    rfl rfl rfl rfl).1

/-- C2 counterexample: for the concrete valid configuration `exInp2`
(space size 2) starting at the last index, the hard stop persists
`(0, true)`, but the claimed restart on a
subsequent same-fingerprint invocation does not happen: `is_completed`
stays `true` and the output is the terminal 5-tuple stop log, not a
freshly computed combination. -/
theorem hard_stop_no_restart_counterexample :
    (execute id exInp2 exSt2).state = { global_index := 0, last_input_hash := exSt2.last_input_hash, is_completed := true } ∧
    (execute id exInp2 (execute id exInp2 exSt2).state).state.is_completed = true ∧
    (execute id exInp2 (execute id exInp2 exSt2).state).output = .tuple5 "[1]" (stopMsg 2) 0 2 true := by
  exact ⟨rfl, rfl, rfl⟩

/-- C3 (amended): the soft stop exists only in
`AutoQueueLoopController._handle_step_and_terminate`: when the user limit
(but not the end of the data) is reached it persists the exact next index
with `is_completed = false` and stops, and a later Auto-mode run with the
same upstream hash resumes from that index (the iteration limit is not
part of that hash).  The combinator engine itself hard-stops at its
`max_combinations` ceiling, persisting `is_completed = true` and
`global_index = 0`; moreover `max_combinations` is part of the engine's
fingerprint, so raising it triggers a hard reset rather than a resume. -/
theorem soft_stop_controller_behavior :
    (∀ (st : CtrlState) (g tc lim : Nat) (hash : String),
      ¬ g ≥ tc - 1 → g ≥ lim - 1 →
      handle_step_and_terminate st g tc lim hash =
        (false, { st with global_index := g + 1, is_completed := false, workflow_started := false, last_input_hash := hash })) ∧
    (∀ (st : CtrlState) (si : Nat) (hash : String),
      st.workflow_started = false → st.last_input_hash = hash →
      st.is_completed = false →
      determine_index_and_reset st "Auto" si hash =
        (st.global_index, { st with workflow_started := true, last_mode := "Auto" }, true)) ∧
    (∀ (md5 : String → String) (inp : ExecInput) (st : PState)
      (vps : List (List String)) (nums : List Nat),
      parse_and_validate_template inp.template_text inp.pools = .ok (vps, nums) →
      inp.start_index = 0 →
      st.last_input_hash = calc_input_hash md5 inp →
      st.is_completed = false →
      0 < inp.max_combinations →
      inp.max_combinations < (vps.map List.length).prod →
      st.global_index = inp.max_combinations - 1 →
      (execute md5 inp st).state = { global_index := 0, last_input_hash := st.last_input_hash, is_completed := true }) ∧
    calc_input_hash id { exInp3 with max_combinations := 3 } ≠ calc_input_hash id exInp3 := by
  refine ⟨?_, ?_, ?_, by decide⟩
  · intro st g tc lim hash h1 h2
    unfold handle_step_and_terminate
    simp only []
    rw [if_neg h1, if_pos h2]
  · intro st si hash hws hh hcmp
    unfold determine_index_and_reset
    simp only []
    rw [if_pos (Or.inl (by simp [hws])), if_neg (by decide), if_neg (by decide),
      if_neg (by simp [hh, hcmp])]
  · intro md5 inp st vps nums hok hstart hhash hnc hmpos hmlt hidx
    have hT : effective_total inp.max_combinations (pools_total vps) =
        inp.max_combinations := by
      rw [pools_total_eq_prod]
      exact effective_total_of_cap _ _ hmpos hmlt
    have hrs : reset_stage (calc_input_hash md5 inp) inp.start_index st = st := by
      rw [hstart]
      exact reset_stage_keep _ _ hhash.symm
    have h1 : execute md5 inp st = execute_core inp st := by
      unfold execute
      rw [hrs]
    have hlast := execute_core_last inp st vps nums hok (by omega) hnc (by omega)
    rw [h1, hlast.1]

theorem soft_stop_controller_behavior_witness :
    handle_step_and_terminate { global_index := 0, last_input_hash := "", is_completed := false, workflow_started := true, last_mode := "", last_start_index := -1 } 1 5 2 "h" =
      (false, { global_index := 2, last_input_hash := "h", is_completed := false, workflow_started := false, last_mode := "", last_start_index := -1 }) :=
  soft_stop_controller_behavior.1
    { global_index := 0, last_input_hash := "", is_completed := false, workflow_started := true, last_mode := "", last_start_index := -1 }
    1 5 2 "h" (by omega) (by omega)

/-- C3 counterexample: for `exInp3` (`max_combinations = 2` strictly
between 0 and the space size 3) the combinator engine at the ceiling
index 1 persists `global_index = 0` and `is_completed = true` — it does
not keep the next index 2 and does not leave `is_completed` false as the
claim states. -/
theorem soft_stop_engine_counterexample :
    0 < exInp3.max_combinations ∧
    exInp3.max_combinations < (([["a", "b", "c"]] : List (List String)).map List.length).prod ∧
    parse_and_validate_template exInp3.template_text exInp3.pools = .ok ([["a", "b", "c"]], [1]) ∧
    exSt3.global_index = exInp3.max_combinations - 1 ∧
    (execute id exInp3 exSt3).state = { global_index := 0, last_input_hash := exSt3.last_input_hash, is_completed := true } := by
  exact ⟨by decide, by decide, rfl, rfl, rfl⟩

/-- C4 (amended): with `start_index = 0`, matching fingerprint, not
completed, and at least two steps of headroom below the effective limit,
each of two successive invocations with identical inputs advances the
persisted index by exactly one (no skips, no repeats).  (A nonzero
`start_index` breaks this via the soft reset, see the counterexample.) -/
theorem single_step_advance_zero_start (md5 : String → String) (inp : ExecInput)
    (st : PState) (vps : List (List String)) (nums : List Nat)
    (hok : parse_and_validate_template inp.template_text inp.pools = .ok (vps, nums))
    (hstart : inp.start_index = 0)
    (hhash : st.last_input_hash = calc_input_hash md5 inp)
    (hnc : st.is_completed = false)
    (hlt : st.global_index + 2 < effective_total inp.max_combinations (pools_total vps)) :
    (execute md5 inp st).state = { global_index := st.global_index + 1, last_input_hash := st.last_input_hash, is_completed := false } ∧
    (execute md5 inp (execute md5 inp st).state).state = { global_index := st.global_index + 2, last_input_hash := st.last_input_hash, is_completed := false } := by
  have hrs : reset_stage (calc_input_hash md5 inp) inp.start_index st = st := by
    rw [hstart]
    exact reset_stage_keep _ _ hhash.symm
  have h1 : execute md5 inp st = execute_core inp st := by
    unfold execute
    rw [hrs]
  have hstep1 := execute_core_step inp st vps nums hok hnc (by omega)
  have hstate1 : (execute md5 inp st).state =
      { global_index := st.global_index + 1, last_input_hash := st.last_input_hash, is_completed := false } := by
    rw [h1, hstep1.1]
  have hrs2 : reset_stage (calc_input_hash md5 inp) inp.start_index
      ({ global_index := st.global_index + 1, last_input_hash := st.last_input_hash, is_completed := false } : PState) =
      { global_index := st.global_index + 1, last_input_hash := st.last_input_hash, is_completed := false } := by
    rw [hstart]
    exact reset_stage_keep _ _ hhash.symm
  have h2 : execute md5 inp ({ global_index := st.global_index + 1, last_input_hash := st.last_input_hash, is_completed := false } : PState) =
      execute_core inp { global_index := st.global_index + 1, last_input_hash := st.last_input_hash, is_completed := false } := by
    unfold execute
    rw [hrs2]
  have hstep2 := execute_core_step inp
    ({ global_index := st.global_index + 1, last_input_hash := st.last_input_hash, is_completed := false } : PState)
    vps nums hok rfl
    (by show st.global_index + 1 < effective_total inp.max_combinations (pools_total vps) - 1; omega)
  refine ⟨hstate1, ?_⟩
  rw [hstate1, h2, hstep2.1]

theorem single_step_advance_zero_start_witness :
    (execute id exInp5 exSt5).state = { global_index := 1, last_input_hash := exSt5.last_input_hash, is_completed := false } ∧
    (execute id exInp5 (execute id exInp5 exSt5).state).state = { global_index := 2, last_input_hash := exSt5.last_input_hash, is_completed := false } :=
  single_step_advance_zero_start id exInp5 exSt5 [["a", "b", "c", "d"]] [1]
    rfl rfl rfl rfl (by decide)

/-- C4 counterexample: identical inputs with `start_index = 1` and
persisted index 1: the first invocation advances 1 → 2, but the second
soft-resets back to 1 and repeats combination 1 (identical output),
leaving the persisted index at 2 instead of 3 — a repeat, contradicting
the unconditional single-step-advance claim. -/
theorem single_step_repeat_counterexample :
    (execute id exInp4 exSt4).state.global_index = 2 ∧
    (execute id exInp4 (execute id exInp4 exSt4).state).state.global_index = 2 ∧
    (execute id exInp4 (execute id exInp4 exSt4).state).output = (execute id exInp4 exSt4).output := by
  exact ⟨rfl, rfl, rfl⟩

/-- C5: every state record written to durable storage — by the engine
(`execute` saves), the auto-queue processor (`process_queue`), or the
loop controller (`_determine_index_and_reset` when it saves, and
`_handle_step_and_terminate`) — satisfies
`is_completed = true → global_index = 0`. -/
theorem persisted_completed_implies_zero :
    (∀ (md5 : String → String) (inp : ExecInput) (st : PState),
      (execute md5 inp st).saved = true →
      (execute md5 inp st).state.is_completed = true →
      (execute md5 inp st).state.global_index = 0) ∧
    (∀ (ci ti : Nat) (aq : Bool) (st : PState),
      (process_queue ci ti aq st).2.2.1.is_completed = true →
      (process_queue ci ti aq st).2.2.1.global_index = 0) ∧
    (∀ (st : CtrlState) (mode : String) (si : Nat) (hash : String),
      (determine_index_and_reset st mode si hash).2.2 = true →
      (determine_index_and_reset st mode si hash).2.1.is_completed = true →
      (determine_index_and_reset st mode si hash).2.1.global_index = 0) ∧
    (∀ (st : CtrlState) (g tc lim : Nat) (hash : String),
      (handle_step_and_terminate st g tc lim hash).2.is_completed = true →
      (handle_step_and_terminate st g tc lim hash).2.global_index = 0) := by
  refine ⟨?_, process_queue_written_inv, determine_written_inv, handle_step_written_inv⟩
  intro md5 inp st hsaved hc
  have hchar := execute_core_written_char inp
    (reset_stage (calc_input_hash md5 inp) inp.start_index st)
  have he : execute md5 inp st =
      execute_core inp (reset_stage (calc_input_hash md5 inp) inp.start_index st) := rfl
  rw [he] at hsaved hc ⊢
  rcases hchar with h | h | h
  · rw [h] at hsaved
    simp at hsaved
  · exact h.2
  · rw [h] at hc
    simp at hc

theorem persisted_completed_implies_zero_witness :
    (execute id exInp2 exSt2).state.global_index = 0 :=
  persisted_completed_implies_zero.1 id exInp2 exSt2 rfl rfl

/-- C6 (amended): for every template whose anchor set contains an anchor
`n ≥ 1` whose pool is unsupplied or parses to zero elements, validation
raises the configuration error naming an offending anchor (the first one
the loop over `range(1, max_anchor + 1)` meets, itself with an empty
pool), the engine returns that error to the caller, and the persisted
record is not written by that invocation.  (Anchor 0 is outside the
loop's range and is silently skipped, see the counterexample.) -/
theorem empty_pool_validation_error (md5 : String → String) (inp : ExecInput)
    (st : PState) (m : Nat)
    (hm : m ∈ anchorNumbers inp.template_text) (hm1 : 1 ≤ m)
    (hempty : parse_pool_text (inp.pools m) = []) :
    ∃ n, n ∈ anchorNumbers inp.template_text ∧ 1 ≤ n ∧
      parse_pool_text (inp.pools n) = [] ∧
      parse_and_validate_template inp.template_text inp.pools = .error (errMsg n) ∧
      (execute md5 inp st).output = .tuple5 inp.template_text (errMsg n) (reset_stage (calc_input_hash md5 inp) inp.start_index st).global_index 0 true ∧
      (execute md5 inp st).saved = false := by
  have hA : anchorNumbers inp.template_text ≠ [] := by
    intro h
    rw [h] at hm
    cases hm
  have hmL : m ∈ List.range' 1 ((anchorNumbers inp.template_text).foldr max 0) := by
    rw [List.mem_range'_1]
    refine ⟨hm1, ?_⟩
    have := le_foldr_max hm
    omega
  obtain ⟨n, hnL, hna, hne, hval⟩ := validatePools_error inp.pools
    (anchorNumbers inp.template_text) _ ⟨m, hmL, hm, hempty⟩
  have h1n : 1 ≤ n := by
    have := List.mem_range'_1.mp hnL
    omega
  have hpv : parse_and_validate_template inp.template_text inp.pools =
      .error (errMsg n) := by
    unfold parse_and_validate_template
    simp only []
    rw [if_neg hA]
    exact hval
  have hcore := execute_core_error inp
    (reset_stage (calc_input_hash md5 inp) inp.start_index st) (errMsg n) hpv
  refine ⟨n, hna, h1n, hne, hpv, ?_, ?_⟩
  · show (execute_core inp (reset_stage (calc_input_hash md5 inp) inp.start_index st)).output = _
    rw [hcore]
  · show (execute_core inp (reset_stage (calc_input_hash md5 inp) inp.start_index st)).saved = false
    rw [hcore]

theorem empty_pool_validation_error_witness :
    ∃ n, n ∈ anchorNumbers exInp8.template_text ∧ 1 ≤ n ∧
      parse_pool_text (exInp8.pools n) = [] ∧
      parse_and_validate_template exInp8.template_text exInp8.pools = .error (errMsg n) ∧
      (execute id exInp8 exSt8).output = .tuple5 exInp8.template_text (errMsg n) (reset_stage (calc_input_hash id exInp8) exInp8.start_index exSt8).global_index 0 true ∧
      (execute id exInp8 exSt8).saved = false :=
  empty_pool_validation_error id exInp8 exSt8 1 (by decide) (by decide) rfl

/-- C6 counterexample: the template `[0]` has 0 in its extracted anchor
set and pool 0 can never be supplied (it always parses to zero
elements), yet validation succeeds with no pools at all: the loop over
`range(1, max_anchor + 1)` never visits anchor 0, so it is silently
skipped rather than raising a configuration error. -/
theorem anchor_zero_skipped_counterexample :
    0 ∈ anchorNumbers "[0]" ∧
    parse_pool_text "" = [] ∧
    parse_and_validate_template "[0]" (fun _ => "") = .ok ([], []) := by
  exact ⟨by decide, rfl, rfl⟩

/-- C7 (code bug): for an anchorless template the validator returns the
sentinel `([[]], [])`, so `pool_sizes = [0]` and the computed total is
`math.prod([0]) = 0` — not 1 as the claim and the code's own debug
message `总组合数为 1` state.  The engine therefore takes the completed
branch: it marks the persisted state completed and returns the terminal
5-tuple stop log (the template text is returned, but through the
exhausted path with total 0 and no normal 2-tuple result). -/
theorem anchorless_total_zero_bug :
    anchorNumbers "hello" = [] ∧
    parse_and_validate_template "hello" exInp7.pools = .ok ([[]], []) ∧
    pools_total [[]] = 0 ∧
    (execute id exInp7 exSt7).output = .tuple5 "hello" (stopMsg 0) 0 0 true ∧
    (execute id exInp7 exSt7).state.is_completed = true := by
  exact ⟨rfl, rfl, rfl, rfl, rfl⟩

/-- C8 (code bug): the host contract (`RETURN_TYPES = ("STRING",
"STRING")`) and the claim say `execute` always returns a 2-tuple of
strings, but the validation-error path and the exhausted path return
5-tuples `(text, log, index, total, flag)`; only the normal path returns
the declared 2-tuple. -/
theorem error_paths_return_five_tuple :
    (execute id exInp8 exSt8).output = .tuple5 "[1]" (errMsg 1) 0 0 true ∧
    (execute id exInp8 exSt8).output.arity = 5 ∧
    (execute id exInp2 (execute id exInp2 exSt2).state).output.arity = 5 ∧
    (execute id exInp5 exSt5).output.arity = 2 := by
  exact ⟨rfl, rfl, rfl, rfl⟩

theorem pairwise_lt_of_le_ne {l : List (String × String)}
    (hle : l.Pairwise (fun a b => a.1 ≤ b.1))
    (hne : l.Pairwise (fun a b => a.1 ≠ b.1)) :
    l.Pairwise (fun a b => a.1 < b.1) := by
  induction hle with
  | nil => exact List.Pairwise.nil
  | cons hhead _ ih =>
    cases hne with
    | cons hhead2 htail2 =>
      exact List.Pairwise.cons
        (fun b hb => lt_of_le_of_ne (hhead b hb) (hhead2 b hb)) (ih htail2)

theorem insertionSort_key_perm_eq (d1 d2 : List (String × String))
    (hperm : d1.Perm d2) (hnd : (d1.map Prod.fst).Nodup) :
    List.insertionSort (fun a b => a.1 ≤ b.1) d1 =
      List.insertionSort (fun a b => a.1 ≤ b.1) d2 := by
  haveI : IsTotal (String × String) (fun a b => a.1 ≤ b.1) :=
    ⟨fun a b => le_total a.1 b.1⟩
  haveI : IsTrans (String × String) (fun a b => a.1 ≤ b.1) :=
    ⟨fun a b c hab hbc => le_trans hab hbc⟩
  haveI : IsAntisymm (String × String) (fun a b => a.1 < b.1) :=
    ⟨fun a b hab hba => (lt_asymm hab hba).elim⟩
  have hnd2 : (d2.map Prod.fst).Nodup := ((hperm.map Prod.fst).nodup_iff).mp hnd
  have hp12 : (List.insertionSort (fun a b => a.1 ≤ b.1) d1).Perm
      (List.insertionSort (fun a b => a.1 ≤ b.1) d2) :=
    (List.perm_insertionSort _ _).trans (hperm.trans (List.perm_insertionSort _ _).symm)
  have hnds1 : ((List.insertionSort (fun a b => a.1 ≤ b.1) d1).map Prod.fst).Nodup :=
    (((List.perm_insertionSort _ d1).map Prod.fst).nodup_iff).mpr hnd
  have hnds2 : ((List.insertionSort (fun a b => a.1 ≤ b.1) d2).map Prod.fst).Nodup :=
    (((List.perm_insertionSort _ d2).map Prod.fst).nodup_iff).mpr hnd2
  have hlt1 : (List.insertionSort (fun a b => a.1 ≤ b.1) d1).Pairwise
      (fun a b => a.1 < b.1) :=
    pairwise_lt_of_le_ne (List.sorted_insertionSort _ _)
      (List.pairwise_map.mp hnds1)
  have hlt2 : (List.insertionSort (fun a b => a.1 ≤ b.1) d2).Pairwise
      (fun a b => a.1 < b.1) :=
    pairwise_lt_of_le_ne (List.sorted_insertionSort _ _)
      (List.pairwise_map.mp hnds2)
  exact List.eq_of_perm_of_sorted hp12 hlt1 hlt2

/-- C9: for any two input dictionaries (association lists with distinct
keys) containing the same key/value pairs in any insertion order,
`calculate_input_hash` returns the same hash: excluded control keys are
dropped and the remaining `key:value` pairs are concatenated sorted by
key, so the digest input — and hence the digest, for any deterministic
digest function — is order-independent. -/
theorem input_hash_order_independent (md5 : String → String)
    (l1 l2 : List (String × String)) (hperm : l1.Perm l2)
    (hkeys : (l1.map Prod.fst).Nodup) :
    sm_calculate_input_hash md5 l1 = sm_calculate_input_hash md5 l2 := by
  have hpf : (l1.filter (fun kv => ¬ kv.1 ∈ sm_exclude_keys)).Perm
      (l2.filter (fun kv => ¬ kv.1 ∈ sm_exclude_keys)) := hperm.filter _
  have hnd1 : ((l1.filter (fun kv => ¬ kv.1 ∈ sm_exclude_keys)).map Prod.fst).Nodup := by
    refine List.Nodup.sublist ?_ hkeys
    exact (List.filter_sublist l1).map Prod.fst
  have key := insertionSort_key_perm_eq _ _ hpf hnd1
  unfold sm_calculate_input_hash sm_data_string
  simp only []
  rw [key]

theorem input_hash_order_independent_witness :
    sm_calculate_input_hash id [("b", "2"), ("a", "1")] =
      sm_calculate_input_hash id [("a", "1"), ("b", "2")] :=
  input_hash_order_independent id [("b", "2"), ("a", "1")] [("a", "1"), ("b", "2")]
    (by decide) (by decide)

end SuperSuger
